import Mathlib

/-!
Verification of the vds-gen repository (vdsgen/group.py and
vdsgen/reshapevdsgenerator.py): a shallow embedding of the slice
normalisation, virtual-map construction and mixed-radix index algorithms,
with theorems settling the specified properties.

Conventions of the embedding:
* Python ints are `Int` (arbitrary precision); shapes are `List Nat`.
* `h5s.UNLIMITED` is `none` in `MDim := Option Nat`; a bounded extent `n`
  is `some n`.
* Python 2 `/` on ints is floor division: `Int.fdiv`.
* exceptions are `Except PErr`; `PErr` carries the Python exception class.
-/

namespace VdsGen

/-- The Python exception classes the embedded code raises. -/
inductive PErr
  | indexError
  | valueError
  | typeError
  deriving DecidableEq, Repr

/-- One entry of a `maxshape`/`count` tuple: `none` is `h5s.UNLIMITED`. -/
abbrev MDim := Option Nat

/-- A Python `slice` object: any of start/stop/step may be `None`. -/
structure PySlice where
  start : Option Int
  stop : Option Int
  step : Option Int
  deriving DecidableEq, Repr

/-- One entry of a `__getitem__` key: an integer, a slice, or `Ellipsis`. -/
inductive SliceComponent
  | int (i : Int)
  | slc (s : PySlice)
  | ellipsis
  deriving DecidableEq, Repr

/-- `DatasetContainer` of vdsgen/group.py: path, in-file key, shape,
current slice state and maxshape.  (`dtype` is accepted by `__init__` but
never stored, so it is no field.) -/
structure DatasetContainer where
  path : String
  key : String
  shape : List Nat
  slice_list : List PySlice
  maxshape : List MDim
  deriving DecidableEq, Repr

/-- `DatasetContainer.__init__`: the default slice list is the full extent
per axis, `slice(0, ix, 1)`; a `maxshape` of `None` defaults to `shape`,
and `None` entries inside a given `maxshape` become `h5s.UNLIMITED`. -/
def DatasetContainer.make (path key : String) (shape : List Nat)
    (maxshape : Option (List (Option Nat))) : DatasetContainer :=
  { path := path
    key := key
    shape := shape
    slice_list := shape.map (fun ix => ⟨some 0, some (ix : Int), some 1⟩)
    maxshape := match maxshape with
      | none => shape.map some
      | some ms => ms }

/-- `slice(ix, ix + 1, 1)` rewriting of integer key entries
(group.py line 98). -/
def intToSlc : SliceComponent → SliceComponent
  | .int i => .slc ⟨some i, some (i + 1), some 1⟩
  | c => c

def isEllipsis : SliceComponent → Bool
  | .ellipsis => true
  | _ => false

/-- Extract the slice of a non-ellipsis component (after `intToSlc` every
component written into the slice list is a `.slc`; the other cases are
unreachable there). -/
def compSlice : SliceComponent → PySlice
  | .slc s => s
  | .int i => ⟨some i, some (i + 1), some 1⟩
  | .ellipsis => ⟨none, none, none⟩

/-- Ellipsis handling of `_parse_slicing` (group.py lines 101-113): the
slice list the per-axis loop then runs over.  `sliceList` is the
container's current slice list (rank entries), `key2` the key after
`intToSlc`, assumed to hold at most one ellipsis (checked by the caller).
Mirrors the source exactly, including the `ellipsis_idx_back >=
ellipsis_idx` guard under which entries after the ellipsis are dropped. -/
def expand_key (sliceList : List PySlice) (key2 : List SliceComponent) :
    List PySlice :=
  let ellCount := (key2.filter isEllipsis).length
  if ellCount = 0 then
    key2.map compSlice ++ sliceList.drop key2.length
  else if key2.length ≠ 1 then
    let e := key2.findIdx isEllipsis
    let eb := key2.reverse.findIdx isEllipsis
    let base := (key2.take e).map compSlice ++ sliceList.drop e
    if e ≤ eb then
      base.take (sliceList.length - eb) ++
        (key2.drop (key2.length - eb)).map compSlice
    else base
  else sliceList

/-- The per-axis body of the `for ix, sl in enumerate(tmp.slice_list)` loop
of `_parse_slicing` (group.py lines 115-141): defaults unset components per
the sign of the step, normalises negative bounds by adding the axis length
`L`, computes the resulting axis length with Python 2 floor division, and
returns the resolved slice; a zero step raises `IndexError`. -/
def normAxis (L : Int) (sl : PySlice) : Except PErr (PySlice × Nat) :=
  let step := sl.step.getD 1
  if 0 < step then
    let start0 := sl.start.getD 0
    let stop0 := sl.stop.getD L
    let start := if start0 < 0 then L + start0 else start0
    let stop := if stop0 < 0 then L + stop0 else stop0
    let n := if start < stop then ((stop - start + step - 1).fdiv step).toNat
      else 0
    .ok (⟨some start, some stop, some step⟩, n)
  else if step < 0 then
    let stop0 := sl.stop.getD 0
    let start0 := sl.start.getD L
    let start := if start0 < 0 then L + start0 else start0
    let stop := if stop0 < 0 then L + stop0 else stop0
    let n := if stop < start then ((start - stop - step - 1).fdiv (-step)).toNat
      else 0
    .ok (⟨some start, some stop, some step⟩, n)
  else .error .indexError

/-- The whole per-axis loop: resolved slices and the new shape. -/
def normLoop (shape : List Nat) (ix : Nat) :
    List PySlice → Except PErr (List PySlice × List Nat)
  | [] => .ok ([], [])
  | sl :: rest =>
    match normAxis ((shape.getD ix 0 : Nat) : Int) sl with
    | .error e => .error e
    | .ok (s, n) =>
      match normLoop shape (ix + 1) rest with
      | .error e => .error e
      | .ok (ss, ns) => .ok (s :: ss, n :: ns)

/-- `DatasetContainer._parse_slicing` (group.py lines 87-143) on a key
already unpacked to its component list.  An empty key raises `IndexError`
(the `key[0]` probe of line 95 on an empty tuple); a key longer than the
rank raises `IndexError`; more than one ellipsis raises `ValueError`; a
zero step raises `IndexError` from the loop. -/
def parse_slicing (c : DatasetContainer) (key : List SliceComponent) :
    Except PErr DatasetContainer :=
  let rank := c.shape.length
  if rank < key.length then .error .indexError
  else if key.isEmpty then .error .indexError
  else
    let key2 := key.map intToSlc
    if 1 < (key2.filter isEllipsis).length then .error .valueError
    else
      match normLoop c.shape 0 (expand_key c.slice_list key2) with
      | .error e => .error e
      | .ok (resolved, newShape) =>
        .ok { c with slice_list := resolved, shape := newShape }

/-- `VirtualSource.__getitem__`: shape changes with slicing. -/
def sourceGetitem (c : DatasetContainer) (key : List SliceComponent) :
    Except PErr DatasetContainer :=
  parse_slicing c key

/-- `VirtualTarget.__getitem__`: the shape is restored after slicing. -/
def targetGetitem (c : DatasetContainer) (key : List SliceComponent) :
    Except PErr DatasetContainer :=
  match parse_slicing c key with
  | .error e => .error e
  | .ok t => .ok { t with shape := c.shape }

/-- First index of `h5s.UNLIMITED` in a maxshape, `maxshape.index(UNLIMITED)`
(guarded by an `any` check at every use, so the list has one). -/
def idxOfNone (l : List MDim) : Nat :=
  l.findIdx (fun x => x == none)

/-- The result of `VirtualMap.__init__` (group.py lines 167-216): the
re-sliced source and target, the dtype, the derived block shape (`none`
embeds Python `None`, the rank-1 special case), and the source-side
hyperslab parameters handed to `select_hyperslab`. -/
structure VirtualMap where
  src : DatasetContainer
  target : DatasetContainer
  dtype : String
  block_shape : Option (List Nat)
  start_idx : List (Option Int)
  stride_idx : List (Option Int)
  count_idx : List MDim
  deriving DecidableEq, Repr

/-- `VirtualMap.__init__`: re-slices both descriptors with `[...]`, pads
ranks with singletons to derive `block_shape` — note `(1,) * rank_def`
with a negative `rank_def` is the empty tuple, embedded by
`Int.toNat` — and builds the source-side hyperslab start/stride/count,
forcing the block entry of an unlimited source axis to 1.
`list(None)` (block shape unset while the source has an unlimited axis)
raises `TypeError`; `bs[unlimited_index] = 1` out of range raises
`IndexError`. -/
def VirtualMap.make (virtual_source virtual_target : DatasetContainer)
    (dtype : String) : Except PErr VirtualMap :=
  match sourceGetitem virtual_source [.ellipsis] with
  | .error e => .error e
  | .ok src =>
    match targetGetitem virtual_target [.ellipsis] with
    | .error e => .error e
    | .ok target =>
      let rank_def : Int := (target.shape.length : Int) - src.shape.length
      let block0 : Option (List Nat) :=
        if 0 < rank_def then
          if src.shape.length = 1 then none
          else some (List.replicate rank_def.toNat 1 ++ src.shape)
        else if rank_def < 0 then
          if target.shape.length = 1 then none
          else some (List.replicate rank_def.toNat 1 ++ target.shape)
        else some src.shape
      let start_idx := src.slice_list.map (fun ix => ix.start)
      let stride_idx := src.slice_list.map (fun ix => ix.step)
      if src.maxshape.any (fun ix => ix == none) then
        let u := idxOfNone src.maxshape
        let count_idx := (List.replicate stride_idx.length (some 1 : MDim)).set u none
        match block0 with
        | none => .error .typeError
        | some bs =>
          if u < bs.length then
            .ok ⟨src, target, dtype, some (bs.set u 1), start_idx, stride_idx,
              count_idx⟩
          else .error .indexError
      else
        .ok ⟨src, target, dtype, block0, start_idx, stride_idx,
          List.replicate stride_idx.length (some 1 : MDim)⟩

/-- The per-map target-side hyperslab parameters of
`VGroup.create_virtual_dataset` (group.py lines 35-47): start and stride
from the target's slice list, count all ones except `UNLIMITED` on the
target's unlimited axis, and the map's block shape passed through
unchanged. -/
def targetHyperslab (vm : VirtualMap) :
    List (Option Int) × List (Option Int) × List MDim × Option (List Nat) :=
  let virt_start_idx := vm.target.slice_list.map (fun ix => ix.start)
  let virt_stride_index := vm.target.slice_list.map (fun ix => ix.step)
  let count_idx :=
    if vm.target.maxshape.any (fun ix => ix == none) then
      (List.replicate virt_stride_index.length (some 1 : MDim)).set
        (idxOfNone vm.target.maxshape) none
    else List.replicate virt_stride_index.length (some 1 : MDim)
  (virt_start_idx, virt_stride_index, count_idx, vm.block_shape)

/-! ## vdsgen/reshapevdsgenerator.py -/

/-- `ReshapeVDSGenerator.product`. -/
def product (l : List Nat) : Nat :=
  l.foldl (fun p v => p * v) 1

/-- `ReshapeVDSGenerator.create_mixed_radix_set`: starts from `[1]` and
prepends `radices[0] * axis_length` for each axis length of
`dimensions[1:]` taken in reverse. -/
def create_mixed_radix_set (dimensions : List Nat) : List Nat :=
  (dimensions.drop 1).reverse.foldl
    (fun radices axis_length => (radices.headD 1 * axis_length) :: radices) [1]

/-- The `while frame_index >= radix` loop of `calculate_axis_indices`:
repeated subtraction, returning (times subtracted, remainder).  `fuel`
bounds the iteration count structurally (each pass removes at least one,
so `i` passes suffice); the `radix ≠ 0` guard embeds the loop's
termination (a zero radix never occurs: radices are products of positive
axis lengths; on a zero radix the Python loop would not terminate). -/
def subLoop : Nat → Nat → Nat → Nat × Nat
  | 0, i, _ => (0, i)
  | fuel + 1, i, radix =>
    if radix ≠ 0 ∧ radix ≤ i then
      let p := subLoop fuel (i - radix) radix
      (p.1 + 1, p.2)
    else (0, i)

/-- The subtraction loop run with enough fuel. -/
def subCount (i radix : Nat) : Nat × Nat :=
  subLoop i i radix

/-- The `for idx, radix in enumerate(radices)` loop writing into the
preallocated `axis_indices` list. -/
def rawGo (acc : List Nat) (idx : Nat) : List Nat → Nat → List Nat
  | [], _ => acc
  | r :: rs, i =>
    let p := subCount i r
    rawGo (acc.set idx p.1) (idx + 1) rs p.2

/-- One step of the alternation loop of `calculate_axis_indices`
(reshapevdsgenerator.py lines 170-174): invert this axis's index when the
axis is flagged alternating and the (already processed) parent axis index
is odd. -/
def altStep (alternate : List Bool) (shape : List Nat) (axis_indices : List Nat)
    (axis : Nat) : List Nat :=
  if alternate.getD axis false = true ∧ axis_indices.getD (axis - 1) 0 % 2 ≠ 0
  then axis_indices.set axis (shape.getD axis 0 - 1 - axis_indices.getD axis 0)
  else axis_indices

/-- The whole `for axis in range(1, len(self.dimensions))` loop. -/
def applyAlternation (dimensions : List Nat) (alternate : List Bool)
    (shape : List Nat) (axis_indices : List Nat) : List Nat :=
  (List.range' 1 (dimensions.length - 1)).foldl (altStep alternate shape)
    axis_indices

/-- `ReshapeVDSGenerator.calculate_axis_indices` (lines 151-176):
mixed-radix conversion of a linear frame index by repeated subtraction,
then alternation of flagged axes.  `dimensions` and `alternate` are the
generator's fields, `radices` and `shape` the arguments. -/
def calculate_axis_indices (dimensions : List Nat) (alternate : List Bool)
    (frame_index : Nat) (radices : List Nat) (shape : List Nat) : List Nat :=
  applyAlternation dimensions alternate shape
    (rawGo (List.replicate dimensions.length 0) 0 radices frame_index)

/-- Per-file metadata as returned by `grab_metadata`.
Modelled from the spec: `grab_metadata` lives in the missing
`vdsgenerator` module; the spec's external-interface section gives the
record per file as frames, height, width and dtype (the `frames` entry is
indexed with `[0]` by the source, so it is a tuple). -/
structure FileMeta where
  frames : List Nat
  height : Nat
  width : Nat
  dtype : String
  deriving DecidableEq, Repr

/-- `SourceMeta` namedtuple.
Modelled from the spec: declared in the missing `vdsgenerator` module,
fields frames, height, width, dtype as constructed at
reshapevdsgenerator.py lines 54-56. -/
structure SourceMeta where
  frames : List Nat
  height : Nat
  width : Nat
  dtype : String
  deriving DecidableEq, Repr

/-- `ReshapeVDSGenerator.process_source_datasets` (lines 36-63): sums the
frame counts of all files into the total, raises `ValueError` when any
attribute other than `frames` differs between a later file and the first,
and returns the first file's metadata as the `SourceMeta`.  Returns
(total_frames, source). -/
def process_source_datasets (f0 : FileMeta) (rest : List FileMeta) :
    Except PErr (Nat × SourceMeta) :=
  if rest.all (fun t => t.height == f0.height && t.width == f0.width
      && t.dtype == f0.dtype) then
    .ok (f0.frames.headD 0 + (rest.map (fun t => t.frames.headD 0)).sum,
      ⟨f0.frames, f0.height, f0.width, f0.dtype⟩)
  else .error .valueError

/-- One axis of a target selection in the reshape generator's layout:
a fixed coordinate or a full slice (`FULL_SLICE`). -/
inductive HSel
  | coord (n : Nat)
  | full
  deriving DecidableEq, Repr

/-- An h5py `VirtualSource` as built by `create_virtual_layout` (an
external h5py object: file, node name, shape, dtype). -/
structure HVirtualSource where
  file : String
  name : String
  shape : List Nat
  dtype : String
  deriving DecidableEq, Repr

/-- An h5py `VirtualLayout` with its recorded assignments: each entry is
(target selection, source, source frame index or `none` for the bulk
`v_layout[...] = v_source` assignment). -/
structure HVirtualLayout where
  shape : List Nat
  dtype : String
  entries : List (List HSel × HVirtualSource × Option Nat)
  deriving DecidableEq, Repr

/-- `ReshapeVDSGenerator.create_virtual_layout` together with
`create_alternating_virtual_layout` (lines 65-121): fails with
`ValueError` when `source_meta.frames[0]` — the first file's frame
count — differs from `product(dimensions)`; otherwise builds the layout
over `dimensions + (height, width)` from the single source file, either as
one bulk assignment or one assignment per frame index. -/
def create_virtual_layout (dimensions : List Nat)
    (alternate : Option (List Bool)) (source_file source_node : String)
    (source_meta : SourceMeta) : Except PErr HVirtualLayout :=
  if source_meta.frames.headD 0 ≠ product dimensions then .error .valueError
  else
    let vds_shape := dimensions ++ [source_meta.height, source_meta.width]
    let source_shape := source_meta.frames ++
      [source_meta.height, source_meta.width]
    let v_source : HVirtualSource :=
      ⟨source_file, source_node, source_shape, source_meta.dtype⟩
    match alternate with
    | none =>
      .ok ⟨vds_shape, source_meta.dtype,
        [(List.replicate vds_shape.length HSel.full, v_source, none)]⟩
    | some alt =>
      let radices := create_mixed_radix_set dimensions
      .ok ⟨vds_shape, source_meta.dtype,
        (List.range (product dimensions)).map (fun idx =>
          let axis_indices :=
            calculate_axis_indices dimensions alt idx radices vds_shape
          (axis_indices.map HSel.coord ++ [HSel.full, HSel.full], v_source,
            some idx))⟩

/-! ## Reference definitions and proof-side helpers -/

/-- Brute-force enumeration length of the indices of a resolved slice with
positive stride `s + 1`: counts `start, start + (s+1), ...` strictly below
`stop`.  The reference the computed axis length is compared against. -/
def progLenPos (start stop : Int) (s : Nat) : Nat :=
  if start < stop then progLenPos (start + (s + 1 : Nat)) stop s + 1 else 0
termination_by (stop - start).toNat
decreasing_by
  have h1 : stop - (start + (s + 1 : Nat)) < stop - start := by
    have : (0 : Int) < (s + 1 : Nat) := by positivity
    omega
  omega

/-- Brute-force enumeration length of a resolved slice: for a positive
step the indices run upward below `stop`; for a negative step they run
downward above `stop` (counted through negation); a zero step denotes no
enumeration. -/
def progLen (start stop step : Int) : Nat :=
  if 0 < step then progLenPos start stop (step - 1).toNat
  else if step < 0 then progLenPos (-start) (-stop) (-step - 1).toNat
  else 0

/-- The axis length of an already resolved slice (concrete non-negative
bounds, non-zero step), as `_parse_slicing` computes it; on such slices
the axis extent is never consulted. -/
def axisLen (sl : PySlice) : Nat :=
  let step := sl.step.getD 1
  if 0 < step then
    let start := sl.start.getD 0
    let stop := sl.stop.getD 0
    if start < stop then ((stop - start + step - 1).fdiv step).toNat else 0
  else if step < 0 then
    let start := sl.start.getD 0
    let stop := sl.stop.getD 0
    if stop < start then ((start - stop - step - 1).fdiv (-step)).toNat else 0
  else 0

/-- A fully resolved slice with non-negative bounds and a non-zero step,
as construction and prior slicing produce. -/
def ResolvedNN (sl : PySlice) : Prop :=
  ∃ st sp stp : Int, sl = ⟨some st, some sp, some stp⟩ ∧
    0 ≤ st ∧ 0 ≤ sp ∧ stp ≠ 0

/-- Structural form of the div/mod chain `rawGo` writes (proof helper). -/
def chain : List Nat → Nat → List Nat
  | [], _ => []
  | r :: rs, i => (subCount i r).1 :: chain rs (subCount i r).2

/-- The radix list built from the inner axis lengths (proof helper:
`create_mixed_radix_set dims = radAux (dims.drop 1)` definitionally). -/
def radAux (l : List Nat) : List Nat :=
  l.reverse.foldl
    (fun radices axis_length => (radices.headD 1 * axis_length) :: radices) [1]

/-- Concrete witness input: a source descriptor unbounded on axis 0. -/
def srcW : DatasetContainer :=
  DatasetContainer.make "s.h5" "data" [5, 5] (some [none, some 5])

/-- Concrete witness input: a target descriptor unbounded on axis 0. -/
def tgtW : DatasetContainer :=
  DatasetContainer.make "t.h5" "data" [5, 5] (some [none, some 5])

/-- The virtual map built from the witness descriptors (the construction
succeeds; the error arm is never taken). -/
def vmW : VirtualMap :=
  match VirtualMap.make srcW tgtW "uint16" with
  | .ok vm => vm
  | .error _ =>
    ⟨srcW, tgtW, "uint16", none, [], [], []⟩

/-! ## Heap-level slicing (frame effects)

Python objects live on a heap; `_parse_slicing` deep-copies `self` into a
fresh object `tmp` and mutates only `tmp`.  A heap is a list of containers
addressed by position; slicing appends the freshly allocated result and
returns its address, every existing address keeping its object. -/

def sourceGetitemHeap (heap : List DatasetContainer) (self : Nat)
    (key : List SliceComponent) :
    Except PErr (List DatasetContainer × Nat) :=
  match heap.get? self with
  | none => .error .indexError
  | some c =>
    match sourceGetitem c key with
    | .error e => .error e
    | .ok r => .ok (heap ++ [r], heap.length)

def targetGetitemHeap (heap : List DatasetContainer) (self : Nat)
    (key : List SliceComponent) :
    Except PErr (List DatasetContainer × Nat) :=
  match heap.get? self with
  | none => .error .indexError
  | some c =>
    match targetGetitem c key with
    | .error e => .error e
    | .ok r => .ok (heap ++ [r], heap.length)

/-! ## Theorems on the claims -/

/-! ### Slice length arithmetic (C5) -/

theorem progLenPos_formula (start stop : Int) (s : Nat) :
    progLenPos start stop s
      = if start < stop then ((stop - start).toNat + s) / (s + 1) else 0 := by
  induction start, stop, s using progLenPos.induct with
  | case1 start stop s hlt ih =>
    rw [progLenPos, if_pos hlt, ih, if_pos hlt]
    by_cases hlt2 : start + ((s + 1 : Nat) : Int) < stop
    · rw [if_pos hlt2]
      have hsum : (stop - start).toNat + s
          = ((stop - (start + ((s + 1 : Nat) : Int))).toNat + s) + (s + 1) := by
        omega
      rw [hsum, Nat.add_div_right _ (Nat.succ_pos s)]
    · rw [if_neg hlt2]
      have h1 : 0 < s + 1 ∧ s + 1 ≤ (stop - start).toNat + s := by omega
      rw [Nat.div_eq, if_pos h1, Nat.div_eq_of_lt (by omega)]
  | case2 start stop s hlt =>
    rw [progLenPos, if_neg hlt, if_neg hlt]

theorem lenPos_eq_progLenPos (st sp stp : Int) (h : 0 < stp) :
    (if st < sp then ((sp - st + stp - 1).fdiv stp).toNat else 0)
      = progLenPos st sp (stp - 1).toNat := by
  rw [progLenPos_formula]
  by_cases hlt : st < sp
  · rw [if_pos hlt, if_pos hlt]
    obtain ⟨b, hb, hbpos⟩ : ∃ b : Nat, stp = (b : Int) ∧ 1 ≤ b :=
      ⟨stp.toNat, by omega, by omega⟩
    subst hb
    have h1 : sp - st + (b : Int) - 1
        = (((sp - st).toNat + (b - 1) : Nat) : Int) := by omega
    have h2 : ((b : Int) - 1).toNat = b - 1 := by omega
    have h3 : b - 1 + 1 = b := by omega
    rw [h1, h2, h3, ← Int.ofNat_fdiv, Int.toNat_ofNat]
  · rw [if_neg hlt, if_neg hlt]

theorem lenPos_eq_ceil (st sp stp : Int) (h : 0 < stp) :
    ((if st < sp then ((sp - st + stp - 1).fdiv stp).toNat else 0 : Nat) : Int)
      = max 0 (-((st - sp).fdiv stp)) := by
  by_cases hlt : st < sp
  · rw [if_pos hlt]
    obtain ⟨b, hb, hbpos⟩ : ∃ b : Nat, stp = ((b + 1 : Nat) : Int) ∧ True :=
      ⟨stp.toNat - 1, by omega, trivial⟩
    subst hb
    obtain ⟨a, ha⟩ : ∃ a : Nat, sp - st = ((a + 1 : Nat) : Int) :=
      ⟨(sp - st).toNat - 1, by omega⟩
    have hst : st - sp = Int.negSucc a := by rw [Int.negSucc_eq]; omega
    have hfd : Int.fdiv (Int.negSucc a) (Int.ofNat (b + 1))
        = Int.negSucc (a / (b + 1)) := rfl
    have hcast : ((b + 1 : Nat) : Int) = Int.ofNat (b + 1) := rfl
    rw [hst, hcast, hfd, Int.neg_negSucc]
    have h1 : sp - st + Int.ofNat (b + 1) - 1 = ((a + (b + 1) : Nat) : Int) := by
      rw [Int.ofNat_eq_coe]; omega
    rw [h1, ← hcast, ← Int.ofNat_fdiv, Int.toNat_ofNat,
      Nat.add_div_right _ (Nat.succ_pos b)]
    have h4 : (0 : Int) ≤ ((a / (b + 1) + 1 : Nat) : Int) := by positivity
    rw [max_eq_right (le_trans h4 (le_refl _))]
  · rw [if_neg hlt]
    have h0 : 0 ≤ (st - sp).fdiv stp :=
      Int.fdiv_nonneg (by omega) (le_of_lt h)
    have : -((st - sp).fdiv stp) ≤ 0 := by omega
    rw [max_eq_left this]
    simp

theorem normAxis_pos (L : Int) (sl : PySlice) (hpos : 0 < sl.step.getD 1) :
    normAxis L sl = .ok
      (⟨some (if sl.start.getD 0 < 0 then L + sl.start.getD 0 else sl.start.getD 0),
        some (if sl.stop.getD L < 0 then L + sl.stop.getD L else sl.stop.getD L),
        some (sl.step.getD 1)⟩,
       if (if sl.start.getD 0 < 0 then L + sl.start.getD 0 else sl.start.getD 0)
           < (if sl.stop.getD L < 0 then L + sl.stop.getD L else sl.stop.getD L)
       then (((if sl.stop.getD L < 0 then L + sl.stop.getD L else sl.stop.getD L)
             - (if sl.start.getD 0 < 0 then L + sl.start.getD 0 else sl.start.getD 0)
             + sl.step.getD 1 - 1).fdiv (sl.step.getD 1)).toNat
       else 0) := by
  simp only [normAxis]
  rw [if_pos hpos]

theorem normAxis_neg (L : Int) (sl : PySlice) (hneg : sl.step.getD 1 < 0) :
    normAxis L sl = .ok
      (⟨some (if sl.start.getD L < 0 then L + sl.start.getD L else sl.start.getD L),
        some (if sl.stop.getD 0 < 0 then L + sl.stop.getD 0 else sl.stop.getD 0),
        some (sl.step.getD 1)⟩,
       if (if sl.stop.getD 0 < 0 then L + sl.stop.getD 0 else sl.stop.getD 0)
           < (if sl.start.getD L < 0 then L + sl.start.getD L else sl.start.getD L)
       then (((if sl.start.getD L < 0 then L + sl.start.getD L else sl.start.getD L)
             - (if sl.stop.getD 0 < 0 then L + sl.stop.getD 0 else sl.stop.getD 0)
             - sl.step.getD 1 - 1).fdiv (-(sl.step.getD 1))).toNat
       else 0) := by
  simp only [normAxis]
  rw [if_neg (by omega), if_pos hneg]

theorem lenNeg_eq_progLen (st sp stp : Int) (h : stp < 0) :
    (if sp < st then ((st - sp - stp - 1).fdiv (-stp)).toNat else 0)
      = progLen st sp stp := by
  have h1 : progLen st sp stp = progLenPos (-st) (-sp) (-stp - 1).toNat := by
    unfold progLen
    rw [if_neg (by omega), if_pos h]
  rw [h1, ← lenPos_eq_progLenPos (-st) (-sp) (-stp) (by omega)]
  rw [show st - sp - stp - 1 = (-sp) - (-st) + (-stp) - 1 from by ring]
  exact if_congr (by constructor <;> intro <;> omega) rfl rfl

theorem lenNeg_eq_ceil (st sp stp : Int) (h : stp < 0) :
    ((if sp < st then ((st - sp - stp - 1).fdiv (-stp)).toNat else 0 : Nat) : Int)
      = max 0 (-((sp - st).fdiv (-stp))) := by
  have h2 := lenPos_eq_ceil (-st) (-sp) (-stp) (by omega)
  rw [show (-st) - (-sp) = sp - st from by ring] at h2
  rw [← h2]
  congr 1
  rw [show st - sp - stp - 1 = (-sp) - (-st) + (-stp) - 1 from by ring]
  exact if_congr (by constructor <;> intro <;> omega) rfl rfl

/-- C5: for every axis of positive length and every slice with a non-zero
step, `_parse_slicing` resolves the slice (defaults per the sign of the
step, negative bounds shifted by the length) and the computed axis length
equals both the brute-force enumeration length `progLen` of the resolved
triple and the claimed ceiling formula — `ceil((stop-start)/step)` clamped
to 0 for a positive step, `ceil((start-stop) / (-step))` clamped to 0 for a
negative one (`-((st-sp).fdiv stp)` is that ceiling). -/
theorem C5_slice_length (L : Nat) (sl : PySlice) (_hL : 0 < L)
    (hstep : sl.step ≠ some 0) :
    ∃ st sp stp : Int, ∃ n : Nat,
      normAxis (L : Int) sl = .ok (⟨some st, some sp, some stp⟩, n) ∧
      stp ≠ 0 ∧
      n = progLen st sp stp ∧
      (0 < stp → (n : Int) = max 0 (-((st - sp).fdiv stp))) ∧
      (stp < 0 → (n : Int) = max 0 (-((sp - st).fdiv (-stp)))) := by
  have hstep0 : sl.step.getD 1 ≠ 0 := by
    cases hs : sl.step with
    | none => simp
    | some v =>
      simp only [Option.getD_some]
      intro h0
      exact hstep (by rw [hs, h0])
  rcases lt_trichotomy 0 (sl.step.getD 1) with hpos | heq | hneg
  · refine ⟨_, _, _, _, normAxis_pos (L : Int) sl hpos, by omega, ?_, ?_, ?_⟩
    · rw [progLen, if_pos hpos, ← lenPos_eq_progLenPos _ _ _ hpos]
    · intro _
      exact lenPos_eq_ceil _ _ _ hpos
    · intro h
      omega
  · exact absurd heq.symm hstep0
  · refine ⟨_, _, _, _, normAxis_neg (L : Int) sl hneg, by omega, ?_, ?_, ?_⟩
    · exact lenNeg_eq_progLen _ _ _ hneg
    · intro h
      omega
    · intro _
      exact lenNeg_eq_ceil _ _ _ hneg

/-- Witness for C5 at length 5 and slice (1, 4, 2). -/
theorem C5_slice_length_witness :
    ∃ st sp stp : Int, ∃ n : Nat,
      normAxis ((5 : Nat) : Int) ⟨some 1, some 4, some 2⟩
        = .ok (⟨some st, some sp, some stp⟩, n) ∧
      stp ≠ 0 ∧
      n = progLen st sp stp ∧
      (0 < stp → (n : Int) = max 0 (-((st - sp).fdiv stp))) ∧
      (stp < 0 → (n : Int) = max 0 (-((sp - st).fdiv (-stp)))) :=
  C5_slice_length 5 ⟨some 1, some 4, some 2⟩ (by decide) (by decide)

/-! ### Mixed-radix arithmetic (C6, C7) -/

theorem foldl_mul_acc (l : List Nat) : ∀ x : Nat,
    l.foldl (fun p v => p * v) x = x * product l := by
  induction l with
  | nil => intro x; simp [product]
  | cons b t ih =>
    intro x
    show t.foldl (fun p v => p * v) (x * b) = x * product (b :: t)
    rw [ih (x * b)]
    have hp : product (b :: t) = b * product t := by
      show t.foldl (fun p v => p * v) (1 * b) = b * product t
      rw [ih (1 * b), one_mul]
    rw [hp, mul_assoc]

theorem product_cons (a : Nat) (l : List Nat) :
    product (a :: l) = a * product l := by
  show l.foldl (fun p v => p * v) (1 * a) = a * product l
  rw [foldl_mul_acc, one_mul]

theorem product_pos (l : List Nat) (h : ∀ d ∈ l, 0 < d) : 0 < product l := by
  induction l with
  | nil => simp [product]
  | cons a t ih =>
    rw [product_cons]
    exact Nat.mul_pos (h a (by simp)) (ih (fun d hd => h d (by simp [hd])))

theorem subLoop_eq : ∀ (fuel i r : Nat), r ≠ 0 → i ≤ fuel →
    subLoop fuel i r = (i / r, i % r) := by
  intro fuel
  induction fuel with
  | zero =>
    intro i r hr hi
    have : i = 0 := Nat.le_zero.mp hi
    subst this
    simp [subLoop]
  | succ f ih =>
    intro i r hr hi
    by_cases h : r ≠ 0 ∧ r ≤ i
    · show (if r ≠ 0 ∧ r ≤ i then
          ((subLoop f (i - r) r).1 + 1, (subLoop f (i - r) r).2)
        else (0, i)) = (i / r, i % r)
      rw [if_pos h]
      rw [ih (i - r) r hr (by omega)]
      have hd : i / r = (i - r) / r + 1 := by
        rw [Nat.div_eq, if_pos ⟨Nat.pos_of_ne_zero hr, h.2⟩]
      have hm : i % r = (i - r) % r := by
        rw [Nat.mod_eq, if_pos ⟨Nat.pos_of_ne_zero hr, h.2⟩]
      rw [hd, hm]
    · show (if r ≠ 0 ∧ r ≤ i then
          ((subLoop f (i - r) r).1 + 1, (subLoop f (i - r) r).2)
        else (0, i)) = (i / r, i % r)
      rw [if_neg h]
      have hlt : i < r := by
        rcases Nat.lt_or_ge i r with hc | hc
        · exact hc
        · exact absurd ⟨hr, hc⟩ h
      rw [Nat.div_eq_of_lt hlt, Nat.mod_eq_of_lt hlt]

theorem subCount_eq (i r : Nat) (hr : r ≠ 0) : subCount i r = (i / r, i % r) :=
  subLoop_eq i i r hr (le_refl i)

theorem set_cons_append (pre : List Nat) (x v : Nat) (t : List Nat) :
    (pre ++ x :: t).set pre.length v = pre ++ v :: t := by
  induction pre with
  | nil => rfl
  | cons a p ih =>
    show a :: (p ++ x :: t).set p.length v = a :: (p ++ v :: t)
    rw [ih]

theorem rawGo_eq_chain : ∀ (rads : List Nat) (i : Nat) (pre : List Nat),
    rawGo (pre ++ List.replicate rads.length 0) pre.length rads i
      = pre ++ chain rads i := by
  intro rads
  induction rads with
  | nil => intro i pre; simp [rawGo, chain]
  | cons r rs ih =>
    intro i pre
    show rawGo ((pre ++ 0 :: List.replicate rs.length 0).set pre.length
        (subCount i r).1) (pre.length + 1) rs (subCount i r).2
      = pre ++ (subCount i r).1 :: chain rs (subCount i r).2
    rw [set_cons_append]
    have h := ih (subCount i r).2 (pre ++ [(subCount i r).1])
    rw [List.length_append, List.length_singleton] at h
    rw [List.append_assoc] at h
    simpa using h

theorem radAux_cons (a : Nat) (l : List Nat) :
    radAux (a :: l) = ((radAux l).headD 1 * a) :: radAux l := by
  unfold radAux
  rw [List.reverse_cons, List.foldl_append]
  rfl

theorem radAux_headD (l : List Nat) : (radAux l).headD 1 = product l := by
  induction l with
  | nil => simp [radAux, product]
  | cons a t ih =>
    rw [radAux_cons, List.headD_cons, ih, product_cons, mul_comm]

theorem radAux_length (l : List Nat) : (radAux l).length = l.length + 1 := by
  induction l with
  | nil => rfl
  | cons a t ih => rw [radAux_cons, List.length_cons, ih]; rfl

theorem create_mixed_radix_set_eq (dims : List Nat) :
    create_mixed_radix_set dims = radAux (dims.drop 1) := rfl

theorem create_mixed_radix_set_length (dims : List Nat) (h : dims ≠ []) :
    (create_mixed_radix_set dims).length = dims.length := by
  rw [create_mixed_radix_set_eq, radAux_length, List.length_drop]
  cases dims with
  | nil => exact absurd rfl h
  | cons d t => simp

theorem chain_spec : ∀ (dims : List Nat), dims ≠ [] → (∀ d ∈ dims, 0 < d) →
    ∀ i, i < product dims →
    (chain (create_mixed_radix_set dims) i).length = dims.length ∧
    (∀ k, k < dims.length →
      (chain (create_mixed_radix_set dims) i).getD k 0 < dims.getD k 0) ∧
    (List.zipWith (fun a b => a * b) (chain (create_mixed_radix_set dims) i)
      (create_mixed_radix_set dims)).sum = i := by
  intro dims
  induction dims with
  | nil => intro h; exact absurd rfl h
  | cons d rest ih =>
    intro _ hpos i hi
    cases rest with
    | nil =>
      have hc : create_mixed_radix_set [d] = [1] := rfl
      rw [hc]
      have hs : subCount i 1 = (i, 0) := by
        rw [subCount_eq i 1 (by omega), Nat.div_one, Nat.mod_one]
      have hch : chain [1] i = [i] := by
        rw [chain, hs, chain]
      rw [hch]
      refine ⟨rfl, ?_, by simp⟩
      intro k hk
      have hd : product [d] = d := by rw [product_cons]; simp [product]
      cases k with
      | zero => simpa using hi.trans_le hd.le
      | succ k2 => simp at hk
    | cons e rest2 =>
      have hR : 0 < product (e :: rest2) :=
        product_pos _ (fun x hx => hpos x (by simp [hx]))
      have hcr : create_mixed_radix_set (d :: e :: rest2)
          = product (e :: rest2) :: create_mixed_radix_set (e :: rest2) := by
        rw [create_mixed_radix_set_eq, List.drop_one, List.tail_cons, radAux_cons,
          radAux_headD, create_mixed_radix_set_eq, List.drop_one, List.tail_cons,
          product_cons, mul_comm]
      rw [hcr]
      have hs : subCount i (product (e :: rest2))
          = (i / product (e :: rest2), i % product (e :: rest2)) :=
        subCount_eq _ _ (by omega)
      have hch : chain (product (e :: rest2) :: create_mixed_radix_set (e :: rest2)) i
          = (i / product (e :: rest2))
            :: chain (create_mixed_radix_set (e :: rest2)) (i % product (e :: rest2)) := by
        rw [chain, hs]
      rw [hch]
      obtain ⟨ihlen, ihbound, ihsum⟩ := ih (by simp)
        (fun x hx => hpos x (by simp [hx]))
        (i % product (e :: rest2)) (Nat.mod_lt _ hR)
      refine ⟨by simpa using ihlen, ?_, ?_⟩
      · intro k hk
        cases k with
        | zero =>
          simp only [List.getD_cons_zero]
          rw [Nat.div_lt_iff_lt_mul hR]
          rw [product_cons] at hi
          exact hi
        | succ k2 =>
          simp only [List.getD_cons_succ]
          exact ihbound k2 (by simpa using hk)
      · simp only [List.zipWith_cons_cons, List.sum_cons, ihsum]
        rw [mul_comm]
        exact Nat.div_add_mod i (product (e :: rest2))

theorem getD_replicate_false (n k : Nat) :
    (List.replicate n false).getD k false = false := by
  induction n generalizing k with
  | zero => rfl
  | succ m ih =>
    cases k with
    | zero => rfl
    | succ k2 => exact ih k2

theorem altStep_false (n : Nat) (shape idx : List Nat) (axis : Nat) :
    altStep (List.replicate n false) shape idx axis = idx := by
  unfold altStep
  rw [if_neg]
  intro hcontra
  have := hcontra.1
  rw [getD_replicate_false] at this
  exact Bool.false_ne_true this

theorem applyAlternation_false (dims : List Nat) (n : Nat)
    (shape idx : List Nat) :
    applyAlternation dims (List.replicate n false) shape idx = idx := by
  unfold applyAlternation
  generalize (List.range' 1 (dims.length - 1)) = axes
  induction axes generalizing idx with
  | nil => rfl
  | cons a t ih =>
    rw [List.foldl_cons, altStep_false]
    exact ih idx

/-- C6: without alternation, `calculate_axis_indices` applied to the
radices of `create_mixed_radix_set` returns, for every linear frame index
below the product of the dimensions, coordinates bounded by the dimensions
whose radix-weighted sum reconstructs the frame index (the mixed-radix
round trip). -/
theorem C6_mixed_radix_roundtrip (dims shape : List Nat) (i : Nat)
    (hne : dims ≠ []) (hpos : ∀ d ∈ dims, 0 < d) (hi : i < product dims) :
    (calculate_axis_indices dims (List.replicate dims.length false) i
        (create_mixed_radix_set dims) shape).length = dims.length ∧
    (∀ k, k < dims.length →
      (calculate_axis_indices dims (List.replicate dims.length false) i
        (create_mixed_radix_set dims) shape).getD k 0 < dims.getD k 0) ∧
    (List.zipWith (fun a b => a * b)
      (calculate_axis_indices dims (List.replicate dims.length false) i
        (create_mixed_radix_set dims) shape)
      (create_mixed_radix_set dims)).sum = i := by
  have hcalc : calculate_axis_indices dims (List.replicate dims.length false) i
      (create_mixed_radix_set dims) shape
      = chain (create_mixed_radix_set dims) i := by
    unfold calculate_axis_indices
    rw [applyAlternation_false]
    have hlen : dims.length = (create_mixed_radix_set dims).length :=
      (create_mixed_radix_set_length dims hne).symm
    rw [hlen]
    have h := rawGo_eq_chain (create_mixed_radix_set dims) i []
    simpa using h
  rw [hcalc]
  exact chain_spec dims hne hpos i hi

/-- Witness for C6 at dimensions (3, 4), frame index 7. -/
theorem C6_mixed_radix_roundtrip_witness :
    (calculate_axis_indices [3, 4] (List.replicate (2 : Nat) false) 7
        (create_mixed_radix_set [3, 4]) [3, 4, 100, 200]).length = 2 ∧
    (∀ k, k < ([3, 4] : List Nat).length →
      (calculate_axis_indices [3, 4] (List.replicate (2 : Nat) false) 7
        (create_mixed_radix_set [3, 4]) [3, 4, 100, 200]).getD k 0
        < ([3, 4] : List Nat).getD k 0) ∧
    (List.zipWith (fun a b => a * b)
      (calculate_axis_indices [3, 4] (List.replicate (2 : Nat) false) 7
        (create_mixed_radix_set [3, 4]) [3, 4, 100, 200])
      (create_mixed_radix_set [3, 4])).sum = 7 :=
  C6_mixed_radix_roundtrip [3, 4] [3, 4, 100, 200] 7 (by decide)
    (by decide) (by decide)

theorem getD_set_ne {α : Type} (l : List α) (d : α) (i j : Nat) (v : α)
    (h : i ≠ j) : (l.set i v).getD j d = l.getD j d := by
  rw [List.getD_eq_getElem?_getD, List.getD_eq_getElem?_getD,
    List.getElem?_set_ne h]

theorem getD_set_self {α : Type} (l : List α) (d : α) (i : Nat) (v : α)
    (h : i < l.length) : (l.set i v).getD i d = v := by
  rw [List.getD_eq_getElem?_getD, List.getElem?_set]
  rw [if_pos rfl, if_pos h]
  rfl

theorem getD_replicate_lt {α : Type} (a d : α) : ∀ (n k : Nat), k < n →
    (List.replicate n a).getD k d = a := by
  intro n
  induction n with
  | zero => intro k hk; omega
  | succ m ih =>
    intro k hk
    cases k with
    | zero => rfl
    | succ k2 => exact ih k2 (by omega)

theorem altStep_length (alt : List Bool) (shape l : List Nat) (axis : Nat) :
    (altStep alt shape l axis).length = l.length := by
  unfold altStep
  split
  · rw [List.length_set]
  · rfl

theorem altStep_getD_ne (alt : List Bool) (shape l : List Nat) (axis k : Nat)
    (h : axis ≠ k) :
    (altStep alt shape l axis).getD k 0 = l.getD k 0 := by
  unfold altStep
  split
  · exact getD_set_ne l 0 axis k _ h
  · rfl

theorem altStep_getD_self (alt : List Bool) (shape l : List Nat) (axis : Nat)
    (h : axis < l.length) :
    (altStep alt shape l axis).getD axis 0
      = if alt.getD axis false = true ∧ l.getD (axis - 1) 0 % 2 ≠ 0
        then shape.getD axis 0 - 1 - l.getD axis 0
        else l.getD axis 0 := by
  unfold altStep
  split
  · exact getD_set_self l 0 axis _ h
  · rfl

theorem altFold_length (alt : List Bool) (shape raw : List Nat) : ∀ m : Nat,
    ((List.range' 1 m).foldl (altStep alt shape) raw).length = raw.length := by
  intro m
  induction m with
  | zero => rfl
  | succ m2 ih =>
    rw [List.range'_concat, List.foldl_append, List.foldl_cons, List.foldl_nil,
      altStep_length, ih]

theorem altFold_getD_high (alt : List Bool) (shape raw : List Nat) :
    ∀ m k : Nat, m < k →
    ((List.range' 1 m).foldl (altStep alt shape) raw).getD k 0
      = raw.getD k 0 := by
  intro m
  induction m with
  | zero => intro k _; rfl
  | succ m2 ih =>
    intro k hk
    rw [List.range'_concat, List.foldl_append, List.foldl_cons, List.foldl_nil,
      altStep_getD_ne _ _ _ _ _ (by omega), ih k (by omega)]

theorem altFold_getD_stable (alt : List Bool) (shape raw : List Nat) :
    ∀ m2 m1 k : Nat, m1 ≤ m2 → k ≤ m1 →
    ((List.range' 1 m2).foldl (altStep alt shape) raw).getD k 0
      = ((List.range' 1 m1).foldl (altStep alt shape) raw).getD k 0 := by
  intro m2
  induction m2 with
  | zero =>
    intro m1 k h1 _
    have : m1 = 0 := Nat.le_zero.mp h1
    subst this
    rfl
  | succ m3 ih =>
    intro m1 k h1 h2
    by_cases he : m1 = m3 + 1
    · subst he
      rfl
    · have hm : m1 ≤ m3 := by omega
      rw [List.range'_concat, List.foldl_append, List.foldl_cons, List.foldl_nil,
        altStep_getD_ne _ _ _ _ _ (by omega), ih m1 k hm h2]

theorem altFold_char (alt : List Bool) (shape raw : List Nat) (m k : Nat)
    (h1 : 1 ≤ k) (h2 : k ≤ m) (hlen : k < raw.length) :
    ((List.range' 1 m).foldl (altStep alt shape) raw).getD k 0
      = if alt.getD k false = true
          ∧ ((List.range' 1 m).foldl (altStep alt shape) raw).getD (k - 1) 0 % 2
            ≠ 0
        then shape.getD k 0 - 1 - raw.getD k 0
        else raw.getD k 0 := by
  have hAk := altFold_getD_stable alt shape raw m k k h2 (le_refl k)
  have hk1 := altFold_getD_stable alt shape raw m (k - 1) (k - 1) (by omega)
    (le_refl _)
  have hsplit : (List.range' 1 k).foldl (altStep alt shape) raw
      = altStep alt shape ((List.range' 1 (k - 1)).foldl (altStep alt shape) raw)
        k := by
    have hk : k = (k - 1) + 1 := by omega
    conv_lhs => rw [hk]
    rw [List.range'_concat, List.foldl_append, List.foldl_cons,
      List.foldl_nil]
    have h5 : 1 + 1 * (k - 1) = k := by omega
    rw [h5]
  rw [hAk, hsplit,
    altStep_getD_self alt shape _ k (by rw [altFold_length]; exact hlen),
    altFold_getD_high alt shape raw (k - 1) k (by omega), hk1]

/-- C7: for dimensions (3, 4) with alternate (False, True), the
coordinates for frame indices 0 through 11 are the claimed
snake-ordering sequence; and in general an axis's raw coordinate is
replaced by `axisLength - 1 - coord` exactly when that axis (never the
outermost, which is returned unchanged) is flagged alternating and the
final coordinate of its immediate parent axis is odd — the parent's
coordinate is settled before the child axis is processed, so the parity
test reads the parent's output value. -/
theorem C7_alternation :
    ((List.range 12).map (fun i => calculate_axis_indices [3, 4] [false, true] i
        (create_mixed_radix_set [3, 4]) [3, 4, 100, 200])
      = [[0, 0], [0, 1], [0, 2], [0, 3], [1, 3], [1, 2], [1, 1], [1, 0],
         [2, 0], [2, 1], [2, 2], [2, 3]])
    ∧ ∀ (dims : List Nat) (alt : List Bool) (shape raw : List Nat),
        (applyAlternation dims alt shape raw).length = raw.length ∧
        (applyAlternation dims alt shape raw).getD 0 0 = raw.getD 0 0 ∧
        ∀ k, 1 ≤ k → k < dims.length → k < raw.length →
          (applyAlternation dims alt shape raw).getD k 0
            = if alt.getD k false = true
                ∧ (applyAlternation dims alt shape raw).getD (k - 1) 0 % 2 ≠ 0
              then shape.getD k 0 - 1 - raw.getD k 0
              else raw.getD k 0 := by
  constructor
  · decide
  · intro dims alt shape raw
    unfold applyAlternation
    refine ⟨altFold_length alt shape raw _, ?_, ?_⟩
    · have h := altFold_getD_stable alt shape raw (dims.length - 1) 0 0
        (Nat.zero_le _) (le_refl 0)
      simpa using h
    · intro k hk1 hk2 hk3
      exact altFold_char alt shape raw (dims.length - 1) k hk1 (by omega) hk3

/-- C1: `create_virtual_layout` does not compare the summed frame total to
`product(dimensions)`: it compares `source_meta.frames[0]`, the first
file's frame count.  At the claimed end-to-end input — 3 files with frames
(2, 3, 5), identical height 100, width 200, dtype uint16, dimensions
(10,) — `process_source_datasets` sums the total to 10, which equals
`product((10,))`, yet `create_virtual_layout` raises, where the claim says
the run succeeds with a single bulk mapping. -/
theorem C1_code_bug :
    process_source_datasets ⟨[2], 100, 200, "uint16"⟩
        [⟨[3], 100, 200, "uint16"⟩, ⟨[5], 100, 200, "uint16"⟩]
      = .ok (10, ⟨[2], 100, 200, "uint16"⟩)
    ∧ product [10] = 10
    ∧ create_virtual_layout [10] none "raw.h5" "data" ⟨[2], 100, 200, "uint16"⟩
      = .error .valueError := by
  refine ⟨rfl, rfl, rfl⟩

/-- C2: for a source of higher rank than the target (target rank above 1),
`VirtualMap.__init__` computes `(1,) * rank_def` with a negative
`rank_def`, the empty tuple, so blockShape becomes the target shape with
no singleton padding: source shape (2, 3, 4) against target shape (5, 6)
yields blockShape (5, 6), not the claimed (1, 5, 6). -/
theorem C2_code_bug :
    (VirtualMap.make (DatasetContainer.make "s.h5" "data" [2, 3, 4] none)
        (DatasetContainer.make "t.h5" "data" [5, 6] none) "uint16").map
      (fun vm => vm.block_shape) = .ok (some [5, 6])
    ∧ (some [5, 6] : Option (List Nat)) ≠ some [1, 5, 6] := by
  refine ⟨rfl, by decide⟩

/-- C3 counterexample: for a target descriptor whose maxshape is unbounded
exactly on axis 0 (source fully bounded), `create_virtual_dataset` builds
a count that is unbounded on exactly that axis, but passes the map's
blockShape through unchanged: the entry on the unbounded axis stays 5, so
the claimed forcing of that blockShape entry to 1 fails on the target
side. -/
theorem C3_counterexample :
    (VirtualMap.make (DatasetContainer.make "s.h5" "data" [5, 5] none)
        (DatasetContainer.make "t.h5" "data" [5, 5] (some [none, some 5]))
        "uint16").map
      (fun vm => ((targetHyperslab vm).2.2.1, vm.block_shape))
      = .ok ([none, some 1], some [5, 5])
    ∧ (some [5, 5] : Option (List Nat)) ≠ some [1, 5] := by
  refine ⟨rfl, by decide⟩

theorem any_none_of_getD (l : List MDim) (u : Nat) (hu : u < l.length)
    (hval : l.getD u (some 0) = none) :
    l.any (fun ix => ix == none) = true := by
  induction l generalizing u with
  | nil => simp at hu
  | cons a t ih =>
    cases u with
    | zero =>
      have : a = none := hval
      simp [this]
    | succ u2 =>
      rw [List.any_cons]
      have := ih u2 (by simpa using hu) hval
      simp [this]

theorem idxOfNone_eq (l : List MDim) (u : Nat) (hu : u < l.length)
    (hval : l.getD u (some 0) = none)
    (hbefore : ∀ k, k < u → l.getD k (some 0) ≠ none) :
    idxOfNone l = u := by
  induction l generalizing u with
  | nil => simp at hu
  | cons a t ih =>
    cases u with
    | zero =>
      have ha : a = none := hval
      unfold idxOfNone
      rw [List.findIdx_cons]
      simp [ha]
    | succ u2 =>
      have ha : a ≠ none := hbefore 0 (Nat.succ_pos u2)
      unfold idxOfNone
      rw [List.findIdx_cons]
      have hpa : (a == none) = false := by
        cases a with
        | none => exact absurd rfl ha
        | some x => rfl
      rw [hpa]
      have := ih u2 (by simpa using hu) hval
        (fun k hk => hbefore (k + 1) (by omega))
      unfold idxOfNone at this
      simp [this]

theorem count_replicate_set (n u k : Nat) (hk : k < n) :
    ((List.replicate n (some 1 : MDim)).set u none).getD k (some 0)
      = if k = u then none else some 1 := by
  by_cases he : k = u
  · subst he
    rw [if_pos rfl]
    exact getD_set_self _ _ _ _ (by simpa using hk)
  · rw [if_neg he]
    rw [getD_set_ne _ _ _ _ _ (fun h => he h.symm)]
    exact getD_replicate_lt _ _ n k hk

/-- C3, amended: with exactly one unbounded maxshape axis, both the
source-side count (built in `VirtualMap.__init__`) and the target-side
count (built in `create_virtual_dataset`) are unbounded on exactly that
axis and 1 on every other axis; but only the source side forces the
blockShape entry of the unbounded axis to 1 — `create_virtual_dataset`
passes the map's blockShape through unchanged. -/
theorem C3_unlimited_amended (vs vt : DatasetContainer) (d : String)
    (vm : VirtualMap) (hmk : VirtualMap.make vs vt d = .ok vm) :
    (∀ u, u < vm.src.maxshape.length →
      vm.src.maxshape.getD u (some 0) = none →
      (∀ k, k < vm.src.maxshape.length → k ≠ u →
        vm.src.maxshape.getD k (some 0) ≠ none) →
      (∀ k, k < vm.count_idx.length →
        vm.count_idx.getD k (some 0) = if k = u then none else some 1) ∧
      (∀ bs, vm.block_shape = some bs → bs.getD u 0 = 1)) ∧
    (∀ u, u < vm.target.maxshape.length →
      vm.target.maxshape.getD u (some 0) = none →
      (∀ k, k < vm.target.maxshape.length → k ≠ u →
        vm.target.maxshape.getD k (some 0) ≠ none) →
      (∀ k, k < (targetHyperslab vm).2.2.1.length →
        (targetHyperslab vm).2.2.1.getD k (some 0)
          = if k = u then none else some 1) ∧
      (targetHyperslab vm).2.2.2 = vm.block_shape) := by
  constructor
  · intro u hu hval huniq
    cases h1 : sourceGetitem vs [.ellipsis] with
    | error e =>
      rw [VirtualMap.make, h1] at hmk
      exact absurd hmk (by simp)
    | ok src =>
      cases h2 : targetGetitem vt [.ellipsis] with
      | error e =>
        rw [VirtualMap.make, h1, h2] at hmk
        exact absurd hmk (by simp)
      | ok target =>
        rw [VirtualMap.make, h1, h2] at hmk
        simp only [] at hmk
        by_cases hany : src.maxshape.any (fun ix => ix == none) = true
        · rw [if_pos hany] at hmk
          split at hmk
          · exact absurd hmk (by simp)
          · rename_i bs hbs
            split at hmk
            · rename_i hulen
              rw [Except.ok.injEq] at hmk
              subst hmk
              simp only [] at hu hval huniq ⊢
              have huidx : idxOfNone src.maxshape = u :=
                idxOfNone_eq src.maxshape u hu hval
                  (fun k hk => huniq k (by omega) (by omega))
              rw [huidx] at hulen ⊢
              constructor
              · intro k hk
                rw [List.length_set, List.length_replicate] at hk
                exact count_replicate_set _ u k hk
              · intro bs2 hbs2
                rw [Option.some.injEq] at hbs2
                subst hbs2
                exact getD_set_self _ _ _ _ hulen
            · exact absurd hmk (by simp)
        · rw [if_neg hany] at hmk
          rw [Except.ok.injEq] at hmk
          subst hmk
          simp only [] at hu hval
          exact absurd (any_none_of_getD src.maxshape u hu hval) hany
  · intro u hu hval huniq
    have hany : vm.target.maxshape.any (fun ix => ix == none) = true :=
      any_none_of_getD vm.target.maxshape u hu hval
    have huidx : idxOfNone vm.target.maxshape = u :=
      idxOfNone_eq vm.target.maxshape u hu hval
        (fun k hk => huniq k (by omega) (by omega))
    constructor
    · intro k hk
      unfold targetHyperslab at hk ⊢
      simp only [if_pos hany, huidx] at hk ⊢
      rw [List.length_set, List.length_replicate] at hk
      exact count_replicate_set _ u k hk
    · unfold targetHyperslab
      simp only []

/-- Witness for C3: a virtual map whose source is unbounded on axis 0. -/
theorem C3_unlimited_amended_witness :
    (∀ k, k < vmW.count_idx.length →
      vmW.count_idx.getD k (some 0) = if k = 0 then none else some 1) ∧
    (∀ bs, vmW.block_shape = some bs → bs.getD 0 0 = 1) :=
  (C3_unlimited_amended srcW tgtW "uint16" vmW rfl).1 0 (by decide)
    (by decide) (by decide)

/-- C4 counterexample: on a rank-4 array, the key (0, 0, ..., 0) — one
ellipsis with two entries before it and one after — yields shape
(1, 1, 4, 4): the trailing entry is dropped (the
`ellipsis_idx_back >= ellipsis_idx` guard fails), while the equivalent
fully specified key (0, 0, full-slice, 0) yields (1, 1, 4, 1), so entries
after a late ellipsis do not fill the trailing axes. -/
theorem C4_counterexample :
    (parse_slicing (DatasetContainer.make "f" "k" [4, 4, 4, 4] none)
        [.int 0, .int 0, .ellipsis, .int 0]).map (fun t => t.shape)
      = .ok [1, 1, 4, 4]
    ∧ (parse_slicing (DatasetContainer.make "f" "k" [4, 4, 4, 4] none)
        [.int 0, .int 0, .slc ⟨none, none, none⟩, .int 0]).map
        (fun t => t.shape) = .ok [1, 1, 4, 1]
    ∧ ([1, 1, 4, 4] : List Nat) ≠ [1, 1, 4, 1] := by
  refine ⟨rfl, rfl, by decide⟩

theorem findIdx_eq_of_getD {α : Type} (p : α → Bool) (d : α) :
    ∀ (l : List α) (u : Nat), u < l.length → p (l.getD u d) = true →
    (∀ k, k < u → p (l.getD k d) = false) → l.findIdx p = u := by
  intro l
  induction l with
  | nil => intro u hu; simp at hu
  | cons a t ih =>
    intro u hu hval hbefore
    cases u with
    | zero =>
      rw [List.findIdx_cons]
      have : p a = true := hval
      simp [this]
    | succ u2 =>
      have ha : p a = false := hbefore 0 (Nat.succ_pos u2)
      rw [List.findIdx_cons, ha]
      have := ih u2 (by simpa using hu) hval
        (fun k hk => hbefore (k + 1) (by omega))
      simp [this]

theorem filter_eq_nil_of_getD {α : Type} (p : α → Bool) (d : α) :
    ∀ (l : List α), (∀ k, k < l.length → p (l.getD k d) = false) →
    l.filter p = [] := by
  intro l
  induction l with
  | nil => intro _; rfl
  | cons a t ih =>
    intro h
    have ha : p a = false := h 0 (Nat.succ_pos _)
    rw [List.filter_cons, if_neg (by simp [ha])]
    exact ih (fun k hk => h (k + 1) (by simpa using hk))

theorem filter_length_one_of_getD {α : Type} (p : α → Bool) (d : α) :
    ∀ (l : List α) (u : Nat), u < l.length → p (l.getD u d) = true →
    (∀ k, k < l.length → k ≠ u → p (l.getD k d) = false) →
    (l.filter p).length = 1 := by
  intro l
  induction l with
  | nil => intro u hu; simp at hu
  | cons a t ih =>
    intro u hu hval huniq
    cases u with
    | zero =>
      have ha : p a = true := hval
      rw [List.filter_cons, if_pos (by simp [ha])]
      have ht : t.filter p = [] :=
        filter_eq_nil_of_getD p d t
          (fun k hk => huniq (k + 1) (by simpa using hk) (by omega))
      rw [ht]
      rfl
    | succ u2 =>
      have ha : p a = false := huniq 0 (Nat.succ_pos _) (by omega)
      rw [List.filter_cons, if_neg (by simp [ha])]
      exact ih u2 (by simpa using hu) hval
        (fun k hk hke => huniq (k + 1) (by simpa using hk) (by omega))

theorem getD_reverse {α : Type} (l : List α) (d : α) (j : Nat)
    (h : j < l.length) :
    l.reverse.getD j d = l.getD (l.length - 1 - j) d := by
  rw [List.getD_eq_getElem?_getD, List.getD_eq_getElem?_getD,
    List.getElem?_reverse h]

/-- C4, amended: with exactly one ellipsis, at position `e` in a key of
`L ≥ 2` entries against a rank of at least `L`: the entries before the
ellipsis fill the leading axes, and the entries after it fill the
trailing axes only when there are at least as many entries after the
ellipsis as before it (`L - 1 - e ≥ e`); otherwise the entries after the
ellipsis are ignored and those axes keep the existing slices. -/
theorem C4_ellipsis_amended (sliceList : List PySlice)
    (key2 : List SliceComponent) (e : Nat)
    (he : e < key2.length)
    (hell : isEllipsis (key2.getD e (.int 0)) = true)
    (huniq : ∀ k, k < key2.length → k ≠ e →
      isEllipsis (key2.getD k (.int 0)) = false)
    (hlen2 : 2 ≤ key2.length)
    (hrank : key2.length ≤ sliceList.length) :
    (e ≤ key2.length - 1 - e →
      expand_key sliceList key2
        = (key2.take e).map compSlice
          ++ (sliceList.drop e).take
            (sliceList.length - e - (key2.length - 1 - e))
          ++ (key2.drop (e + 1)).map compSlice) ∧
    (key2.length - 1 - e < e →
      expand_key sliceList key2
        = (key2.take e).map compSlice ++ sliceList.drop e) := by
  have hcount : (key2.filter isEllipsis).length = 1 :=
    filter_length_one_of_getD isEllipsis (.int 0) key2 e he hell huniq
  have hfi : key2.findIdx isEllipsis = e :=
    findIdx_eq_of_getD isEllipsis (.int 0) key2 e he hell
      (fun k hk => huniq k (by omega) (by omega))
  have hfir : key2.reverse.findIdx isEllipsis = key2.length - 1 - e := by
    apply findIdx_eq_of_getD isEllipsis (.int 0) key2.reverse
      (key2.length - 1 - e) (by rw [List.length_reverse]; omega)
    · rw [getD_reverse _ _ _ (by omega)]
      have hidx : key2.length - 1 - (key2.length - 1 - e) = e := by omega
      rw [hidx]
      exact hell
    · intro k hk
      rw [getD_reverse _ _ _ (by omega)]
      exact huniq (key2.length - 1 - k) (by omega) (by omega)
  have hexp : expand_key sliceList key2
      = if e ≤ key2.length - 1 - e then
          (((key2.take e).map compSlice ++ sliceList.drop e).take
            (sliceList.length - (key2.length - 1 - e)))
          ++ (key2.drop (key2.length - (key2.length - 1 - e))).map compSlice
        else (key2.take e).map compSlice ++ sliceList.drop e := by
    unfold expand_key
    rw [hcount]
    rw [if_neg (by omega), if_pos (by omega), hfi, hfir]
  have htakelen : ((key2.take e).map compSlice).length = e := by
    rw [List.length_map, List.length_take]
    omega
  constructor
  · intro hle
    rw [hexp, if_pos hle]
    rw [List.take_append_eq_append_take, htakelen]
    rw [List.take_of_length_le (by rw [htakelen]; omega)]
    have hdropidx : key2.length - (key2.length - 1 - e) = e + 1 := by omega
    rw [hdropidx]
    have hmid : sliceList.length - (key2.length - 1 - e) - e
        = sliceList.length - e - (key2.length - 1 - e) := by omega
    rw [hmid, List.append_assoc]
  · intro hgt
    rw [hexp, if_neg (by omega)]

/-- Witness for C4: a rank-4 slice list, key (slice(0,1), ..., slice(0,2))
— the ellipsis at position 1 with one entry after it fills the trailing
axis. -/
theorem C4_ellipsis_amended_witness :
    expand_key [⟨some 0, some 4, some 1⟩, ⟨some 0, some 4, some 1⟩,
        ⟨some 0, some 4, some 1⟩, ⟨some 0, some 4, some 1⟩]
      [.slc ⟨some 0, some 1, some 1⟩, .ellipsis, .slc ⟨some 0, some 2, some 1⟩]
      = [⟨some 0, some 1, some 1⟩, ⟨some 0, some 4, some 1⟩,
         ⟨some 0, some 4, some 1⟩, ⟨some 0, some 2, some 1⟩] := by
  have h := (C4_ellipsis_amended
    [⟨some 0, some 4, some 1⟩, ⟨some 0, some 4, some 1⟩,
      ⟨some 0, some 4, some 1⟩, ⟨some 0, some 4, some 1⟩]
    [.slc ⟨some 0, some 1, some 1⟩, .ellipsis, .slc ⟨some 0, some 2, some 1⟩]
    1 (by decide) (by decide) (by decide) (by decide) (by decide)).1 (by decide)
  rw [h]
  rfl

/-- C8 counterexample: a double ellipsis raises `ValueError` while a zero
step raises `IndexError` — different classes, against the claim — and a
key longer than the rank raises `IndexError`, the same class as the zero
step, against the claimed distinctness. -/
theorem C8_counterexample :
    parse_slicing (DatasetContainer.make "f" "k" [4, 4] none)
        [.ellipsis, .ellipsis] = .error .valueError
    ∧ parse_slicing (DatasetContainer.make "f" "k" [4] none)
        [.slc ⟨some 0, some 1, some 0⟩] = .error .indexError
    ∧ parse_slicing (DatasetContainer.make "f" "k" [4] none)
        [.int 0, .int 0] = .error .indexError
    ∧ PErr.indexError ≠ PErr.valueError := by
  refine ⟨rfl, rfl, rfl, by decide⟩

theorem normAxis_step0 (L : Int) (sl : PySlice) (h : sl.step = some 0) :
    normAxis L sl = .error .indexError := by
  unfold normAxis
  rw [h]
  rfl

theorem normAxis_ok_of (L : Int) (sl : PySlice) (h : sl.step ≠ some 0) :
    ∃ p, normAxis L sl = .ok p := by
  have hstep0 : sl.step.getD 1 ≠ 0 := by
    cases hs : sl.step with
    | none => simp
    | some v =>
      simp only [Option.getD_some]
      intro h0
      exact h (by rw [hs, h0])
  rcases lt_trichotomy 0 (sl.step.getD 1) with hpos | heq | hneg
  · exact ⟨_, normAxis_pos L sl hpos⟩
  · exact absurd heq.symm hstep0
  · exact ⟨_, normAxis_neg L sl hneg⟩

theorem normLoop_error_of_zero (shape : List Nat) :
    ∀ (sls : List PySlice) (ix : Nat),
    sls.any (fun sl => sl.step == some 0) = true →
    normLoop shape ix sls = .error .indexError := by
  intro sls
  induction sls with
  | nil => intro ix h; simp at h
  | cons sl rest ih =>
    intro ix h
    rw [List.any_cons] at h
    by_cases hz : sl.step = some 0
    · simp only [normLoop]
      rw [normAxis_step0 _ _ hz]
    · obtain ⟨p, hp⟩ := normAxis_ok_of ((shape.getD ix 0 : Nat) : Int) sl hz
      have hr : rest.any (fun sl => sl.step == some 0) = true := by
        rcases Bool.or_eq_true_iff.mp h with hc | hc
        · exact absurd (by simpa using hc) hz
        · exact hc
      simp only [normLoop]
      rw [hp, ih (ix + 1) hr]

theorem normLoop_ok_of_no_zero (shape : List Nat) :
    ∀ (sls : List PySlice) (ix : Nat),
    sls.any (fun sl => sl.step == some 0) = false →
    ∃ res, normLoop shape ix sls = .ok res := by
  intro sls
  induction sls with
  | nil => intro ix _; exact ⟨([], []), rfl⟩
  | cons sl rest ih =>
    intro ix h
    rw [List.any_cons, Bool.or_eq_false_iff] at h
    have hz : sl.step ≠ some 0 := by
      intro hc
      rw [hc] at h
      simp at h
    obtain ⟨p, hp⟩ := normAxis_ok_of ((shape.getD ix 0 : Nat) : Int) sl hz
    obtain ⟨res, hres⟩ := ih (ix + 1) h.2
    refine ⟨(p.1 :: res.1, p.2 :: res.2), ?_⟩
    simp only [normLoop]
    rw [hp, hres]

/-- C8, amended: on a fresh container and a non-empty key,
`_parse_slicing` fails with `ValueError` exactly when the key fits the
rank and holds more than one ellipsis, and fails with `IndexError`
exactly when the key is longer than the rank or a retained slice (one
that survives ellipsis expansion) has a zero step — so the zero-step
failure shares its class with the rank violation, not with the
multi-ellipsis failure. -/
theorem C8_error_classes_amended (path nodekey : String) (shape : List Nat)
    (key : List SliceComponent) (hne : key ≠ []) :
    (parse_slicing (DatasetContainer.make path nodekey shape none) key
        = .error .valueError
      ↔ key.length ≤ shape.length
        ∧ 2 ≤ ((key.map intToSlc).filter isEllipsis).length) ∧
    (parse_slicing (DatasetContainer.make path nodekey shape none) key
        = .error .indexError
      ↔ shape.length < key.length
        ∨ (key.length ≤ shape.length
          ∧ ((key.map intToSlc).filter isEllipsis).length ≤ 1
          ∧ (expand_key
              (DatasetContainer.make path nodekey shape none).slice_list
              (key.map intToSlc)).any (fun sl => sl.step == some 0)
            = true)) := by
  have hrank : (DatasetContainer.make path nodekey shape none).shape.length
      = shape.length := rfl
  have hempty : key.isEmpty = false := by
    cases key with
    | nil => exact absurd rfl hne
    | cons a t => rfl
  by_cases hov : shape.length < key.length
  · have hp : parse_slicing (DatasetContainer.make path nodekey shape none) key
        = .error .indexError := by
      unfold parse_slicing
      rw [hrank, if_pos hov]
    rw [hp]
    constructor
    · constructor
      · intro hc
        exact absurd hc (by simp)
      · intro hc
        omega
    · simp [hov]
  · by_cases hell2 : 1 < ((key.map intToSlc).filter isEllipsis).length
    · have hp : parse_slicing (DatasetContainer.make path nodekey shape none)
          key = .error .valueError := by
        unfold parse_slicing
        rw [hrank, if_neg hov, hempty]
        show (if 1 < ((key.map intToSlc).filter isEllipsis).length then _
          else _) = _
        rw [if_pos hell2]
      rw [hp]
      constructor
      · constructor
        · intro _
          exact ⟨by omega, by omega⟩
        · intro _
          rfl
      · constructor
        · intro hc
          exact absurd hc (by simp)
        · intro hc
          rcases hc with hc | hc
          · omega
          · omega
    · have hp : parse_slicing (DatasetContainer.make path nodekey shape none)
          key
          = match normLoop
              (DatasetContainer.make path nodekey shape none).shape 0
              (expand_key
                (DatasetContainer.make path nodekey shape none).slice_list
                (key.map intToSlc)) with
            | .error e => .error e
            | .ok (resolved, newShape) =>
              .ok { DatasetContainer.make path nodekey shape none with
                slice_list := resolved, shape := newShape } := by
        unfold parse_slicing
        rw [hrank, if_neg hov, hempty]
        show (if 1 < ((key.map intToSlc).filter isEllipsis).length then _
          else _) = _
        rw [if_neg hell2]
      by_cases hz : (expand_key
          (DatasetContainer.make path nodekey shape none).slice_list
          (key.map intToSlc)).any (fun sl => sl.step == some 0) = true
      · have hloop := normLoop_error_of_zero
          (DatasetContainer.make path nodekey shape none).shape
          (expand_key (DatasetContainer.make path nodekey shape none).slice_list
            (key.map intToSlc)) 0 hz
        rw [hloop] at hp
        rw [hp]
        constructor
        · constructor
          · intro hc
            exact absurd hc (by simp)
          · intro hc
            omega
        · constructor
          · intro _
            exact Or.inr ⟨by omega, by omega, hz⟩
          · intro _
            rfl
      · obtain ⟨res, hres⟩ := normLoop_ok_of_no_zero
          (DatasetContainer.make path nodekey shape none).shape
          (expand_key (DatasetContainer.make path nodekey shape none).slice_list
            (key.map intToSlc)) 0 (by simpa using hz)
        rw [hres] at hp
        constructor
        · constructor
          · intro hc
            rw [hp] at hc
            cases res
            exact absurd hc (by simp)
          · intro hc
            omega
        · constructor
          · intro hc
            rw [hp] at hc
            cases res
            exact absurd hc (by simp)
          · intro hc
            rcases hc with hc | hc
            · omega
            · exact absurd hc.2.2 hz

/-- Witness for C8 at shape (4, 4) and key (0, slice(0, 1, 0)): the key
fits the rank, has no ellipsis, and retains a zero-step slice, so parsing
fails with IndexError. -/
theorem C8_error_classes_amended_witness :
    parse_slicing (DatasetContainer.make "f" "k" [4, 4] none)
        [.int 0, .slc ⟨some 0, some 1, some 0⟩] = .error .indexError :=
  (C8_error_classes_amended "f" "k" [4, 4]
    [.int 0, .slc ⟨some 0, some 1, some 0⟩] (by decide)).2.mpr
    (Or.inr ⟨by decide, by decide, by decide⟩)

/-- C9: slicing a descriptor (source or target variant) allocates a fresh
object — the returned address is the new end of the heap, distinct from
the receiver — and leaves every existing object, in particular the
receiver with all its fields, unchanged on the heap. -/
theorem C9_copy_on_slice (heap : List DatasetContainer) (self : Nat)
    (key : List SliceComponent) (hself : self < heap.length) :
    (∀ h2 r, sourceGetitemHeap heap self key = .ok (h2, r) →
      r = heap.length ∧ self ≠ r ∧
      ∀ a, a < heap.length → h2.get? a = heap.get? a) ∧
    (∀ h2 r, targetGetitemHeap heap self key = .ok (h2, r) →
      r = heap.length ∧ self ≠ r ∧
      ∀ a, a < heap.length → h2.get? a = heap.get? a) := by
  constructor
  · intro h2 r hok
    unfold sourceGetitemHeap at hok
    cases hg : heap.get? self with
    | none =>
      rw [hg] at hok
      exact absurd hok (by simp)
    | some c =>
      rw [hg] at hok
      simp only [] at hok
      cases hp : sourceGetitem c key with
      | error e =>
        rw [hp] at hok
        exact absurd hok (by simp)
      | ok res =>
        rw [hp] at hok
        rw [Except.ok.injEq, Prod.mk.injEq] at hok
        obtain ⟨hh2, hr⟩ := hok
        subst hh2
        subst hr
        refine ⟨rfl, by omega, ?_⟩
        intro a ha
        rw [List.get?_eq_getElem?, List.get?_eq_getElem?]
        exact List.getElem?_append_left ha
  · intro h2 r hok
    unfold targetGetitemHeap at hok
    cases hg : heap.get? self with
    | none =>
      rw [hg] at hok
      exact absurd hok (by simp)
    | some c =>
      rw [hg] at hok
      simp only [] at hok
      cases hp : targetGetitem c key with
      | error e =>
        rw [hp] at hok
        exact absurd hok (by simp)
      | ok res =>
        rw [hp] at hok
        rw [Except.ok.injEq, Prod.mk.injEq] at hok
        obtain ⟨hh2, hr⟩ := hok
        subst hh2
        subst hr
        refine ⟨rfl, by omega, ?_⟩
        intro a ha
        rw [List.get?_eq_getElem?, List.get?_eq_getElem?]
        exact List.getElem?_append_left ha

/-- Witness for C9: a one-object heap sliced with the full-extent key. -/
theorem C9_copy_on_slice_witness :
    (∀ h2 r, sourceGetitemHeap [DatasetContainer.make "f" "k" [4] none] 0
        [.ellipsis] = .ok (h2, r) →
      r = 1 ∧ 0 ≠ r ∧
      ∀ a, a < (1 : Nat) →
        h2.get? a = [DatasetContainer.make "f" "k" [4] none].get? a) ∧
    (∀ h2 r, targetGetitemHeap [DatasetContainer.make "f" "k" [4] none] 0
        [.ellipsis] = .ok (h2, r) →
      r = 1 ∧ 0 ≠ r ∧
      ∀ a, a < (1 : Nat) →
        h2.get? a = [DatasetContainer.make "f" "k" [4] none].get? a) :=
  C9_copy_on_slice [DatasetContainer.make "f" "k" [4] none] 0 [.ellipsis]
    (by decide)

theorem normAxis_resolved (L : Int) (sl : PySlice) (h : ResolvedNN sl) :
    normAxis L sl = .ok (sl, axisLen sl) := by
  obtain ⟨st, sp, stp, rfl, hst, hsp, hstp⟩ := h
  rcases lt_trichotomy 0 stp with hpos | heq | hneg
  · have ha : axisLen ⟨some st, some sp, some stp⟩
        = if st < sp then ((sp - st + stp - 1).fdiv stp).toNat else 0 := by
      unfold axisLen
      simp only [Option.getD_some]
      rw [if_pos hpos]
    rw [normAxis_pos _ _ (by simpa using hpos), ha]
    simp only [Option.getD_some]
    rw [if_neg (not_lt.mpr hst), if_neg (not_lt.mpr hsp)]
  · exact absurd heq.symm hstp
  · have ha : axisLen ⟨some st, some sp, some stp⟩
        = if sp < st then ((st - sp - stp - 1).fdiv (-stp)).toNat else 0 := by
      unfold axisLen
      simp only [Option.getD_some]
      rw [if_neg (by omega), if_pos hneg]
    rw [normAxis_neg _ _ (by simpa using hneg), ha]
    simp only [Option.getD_some]
    rw [if_neg (not_lt.mpr hst), if_neg (not_lt.mpr hsp)]

theorem normLoop_resolved (shape : List Nat) :
    ∀ (sls : List PySlice) (ix : Nat), (∀ sl ∈ sls, ResolvedNN sl) →
    normLoop shape ix sls = .ok (sls, sls.map axisLen) := by
  intro sls
  induction sls with
  | nil => intro ix _; rfl
  | cons sl rest ih =>
    intro ix h
    simp only [normLoop]
    rw [normAxis_resolved _ _ (h sl (by simp))]
    rw [ih (ix + 1) (fun s hs => h s (by simp [hs]))]
    rfl

/-- C10: on a descriptor of positive rank whose slice list holds fully
resolved triples with non-negative bounds and non-zero steps, re-slicing
with the full-extent key `[...]` is the identity — which is what
`VirtualMap.__init__` relies on when it re-slices both descriptors.  The
target variant restores the receiver's shape after slicing, so its
identity needs no shape hypothesis at all — it covers a `VirtualTarget`
already sliced to a tile, whose (restored) shape does not match its
triples; the source variant recomputes the shape from the triples, so its
identity holds when the shape is the one the triples yield, as
construction or a prior source slicing produces it. -/
theorem C10_full_slice_identity (c : DatasetContainer)
    (hne : c.shape ≠ [])
    (hres : ∀ sl ∈ c.slice_list, ResolvedNN sl) :
    (c.shape = c.slice_list.map axisLen →
      sourceGetitem c [.ellipsis] = .ok c) ∧
    targetGetitem c [.ellipsis] = .ok c := by
  have hparse0 : parse_slicing c [.ellipsis]
      = .ok { c with
          slice_list := c.slice_list
          shape := c.slice_list.map axisLen } := by
    unfold parse_slicing
    rw [if_neg (by
      cases hc : c.shape with
      | nil => exact absurd hc hne
      | cons a t => simp)]
    rw [if_neg (by decide)]
    rw [if_neg (by decide)]
    have hexp : expand_key c.slice_list ([SliceComponent.ellipsis].map intToSlc)
        = c.slice_list := rfl
    rw [hexp, normLoop_resolved c.shape c.slice_list 0 hres]
  constructor
  · intro hshape
    show parse_slicing c [.ellipsis] = .ok c
    rw [hparse0, ← hshape]
  · unfold targetGetitem
    rw [hparse0]

/-- Witness for C10: the source variant on a sliced descriptor with slice
(0, 4, 2) and matching shape 2, and the target variant on a tile-sliced
target whose restored shape (10) does not match its triples. -/
theorem C10_full_slice_identity_witness :
    sourceGetitem ⟨"f", "k", [2], [⟨some 0, some 4, some 2⟩], [some 4]⟩
        [.ellipsis]
      = .ok ⟨"f", "k", [2], [⟨some 0, some 4, some 2⟩], [some 4]⟩ ∧
    targetGetitem ⟨"g", "k", [10], [⟨some 2, some 8, some 2⟩], [some 10]⟩
        [.ellipsis]
      = .ok ⟨"g", "k", [10], [⟨some 2, some 8, some 2⟩], [some 10]⟩ :=
  ⟨(C10_full_slice_identity
      ⟨"f", "k", [2], [⟨some 0, some 4, some 2⟩], [some 4]⟩
      (by decide)
      (by
        intro sl hsl
        rw [List.mem_singleton] at hsl
        subst hsl
        exact ⟨0, 4, 2, rfl, by omega, by omega, by omega⟩)).1 (by decide),
   (C10_full_slice_identity
      ⟨"g", "k", [10], [⟨some 2, some 8, some 2⟩], [some 10]⟩
      (by decide)
      (by
        intro sl hsl
        rw [List.mem_singleton] at hsl
        subst hsl
        exact ⟨2, 8, 2, rfl, by omega, by omega, by omega⟩)).2⟩

end VdsGen
